import Mathlib

set_option maxRecDepth 16000

/-!
Verification of the query-construction and request-lifecycle logic of the
dakikg-ui single-page search interface (source: `src/dakikg/src/App.jsx`).

Strings are modelled as `List Char`.  JavaScript string primitives used by the
source (`String.prototype.replace` with a string pattern, regex-global
single-character replacement, `trim`, `toLowerCase`, `split`) are embedded
explicitly, including the `$`-substitution patterns of `replace` and its
first-occurrence-only semantics.
-/

/-- The double-quote character. -/
def dq : Char := Char.ofNat 34

/-- The backslash character. -/
def bsl : Char := Char.ofNat 92

/-- The dollar character, special in JavaScript `replace` replacement strings. -/
def dollarC : Char := '$'

/-- The ampersand character. -/
def amperC : Char := '&'

/-- The backquote character. -/
def backqC : Char := Char.ofNat 96

/-- The single-quote character. -/
def squoteC : Char := Char.ofNat 39

/-- Whitespace recognised by JavaScript `String.prototype.trim` (the
code-relevant subset: ASCII whitespace plus NBSP and the BOM). -/
def isJsSpace (c : Char) : Bool :=
  c = ' ' || c = '\t' || c = '\n' || c = '\r' ||
  c = Char.ofNat 11 || c = Char.ofNat 12 || c = Char.ofNat 160 || c = Char.ofNat 65279

/-- JavaScript `String.prototype.trim`: strip leading and trailing whitespace. -/
def jsTrim (s : List Char) : List Char :=
  ((s.dropWhile isJsSpace).reverse.dropWhile isJsSpace).reverse

/-- JavaScript `String.prototype.toLowerCase`, restricted to ASCII letters
(the only characters the surrounding code distinguishes). -/
def jsToLower (s : List Char) : List Char :=
  s.map Char.toLower

/-- Global single-character replacement, modelling a JavaScript regex-global
`replace` whose pattern is one literal character and whose replacement string
contains no `$` patterns. -/
def replaceAllChar (c : Char) (r : List Char) : List Char → List Char
  | [] => []
  | x :: xs => (if x = c then r else [x]) ++ replaceAllChar c r xs

/-- The function `escapeSparqlStringLiteral` from App.jsx:
`value.replace(/\\/g, '\\\\').replace(/"/g, '\\"')` — escape every backslash
first, then every double quote. -/
def escapeSparqlStringLiteral (v : List Char) : List Char :=
  replaceAllChar dq [bsl, dq] (replaceAllChar bsl [bsl, bsl] v)

/-- Modelled from the spec: parsing text back as the contents of a quoted
string literal, unescaping `\"` to `"` and `\\` to `\`.  (The repository has
no such parser; the spec's round-trip property describes this reading.) -/
def unescapeStringLiteral : List Char → List Char
  | [] => []
  | [c] => [c]
  | c1 :: c2 :: rest =>
    if c1 = bsl ∧ (c2 = bsl ∨ c2 = dq) then c2 :: unescapeStringLiteral rest
    else c1 :: unescapeStringLiteral (c2 :: rest)

theorem replaceAllChar_append (c : Char) (r a b : List Char) :
    replaceAllChar c r (a ++ b) = replaceAllChar c r a ++ replaceAllChar c r b := by
  induction a with
  | nil => simp [replaceAllChar]
  | cons x xs ih => simp [replaceAllChar, ih]

/-- Per-character description of the two-pass escape. -/
def escChar (x : Char) : List Char :=
  if x = bsl then [bsl, bsl] else if x = dq then [bsl, dq] else [x]

theorem escape_nil : escapeSparqlStringLiteral [] = [] := rfl

theorem escape_cons (x : Char) (xs : List Char) :
    escapeSparqlStringLiteral (x :: xs) = escChar x ++ escapeSparqlStringLiteral xs := by
  unfold escapeSparqlStringLiteral escChar
  show replaceAllChar dq [bsl, dq]
      ((if x = bsl then [bsl, bsl] else [x]) ++ replaceAllChar bsl [bsl, bsl] xs) = _
  rw [replaceAllChar_append]
  by_cases hb : x = bsl
  · simp [hb, replaceAllChar, show ¬ (bsl = dq) by decide]
  · by_cases hq : x = dq
    · simp [hb, hq, replaceAllChar, show ¬ (dq = bsl) by decide]
    · simp [hb, hq, replaceAllChar]

/-- C4: the escaping function is inverted exactly by quoted-literal
unescaping, for every raw query text. -/
theorem escape_roundtrip (v : List Char) :
    unescapeStringLiteral (escapeSparqlStringLiteral v) = v := by
  induction v with
  | nil => rfl
  | cons x xs ih =>
    rw [escape_cons]
    unfold escChar
    by_cases hb : x = bsl
    · simp only [hb, if_pos rfl]
      show unescapeStringLiteral (bsl :: bsl :: escapeSparqlStringLiteral xs) = _
      rw [unescapeStringLiteral]
      simp [ih]
    · by_cases hq : x = dq
      · simp only [hb, if_neg hb, hq, if_pos rfl]
        show unescapeStringLiteral (bsl :: dq :: escapeSparqlStringLiteral xs) = _
        rw [unescapeStringLiteral]
        simp [ih]
      · simp only [if_neg hb, if_neg hq]
        show unescapeStringLiteral (x :: escapeSparqlStringLiteral xs) = x :: xs
        cases h : escapeSparqlStringLiteral xs with
        | nil =>
          rw [h] at ih
          simp [unescapeStringLiteral, ← ih]
        | cons y ys =>
          rw [unescapeStringLiteral]
          rw [h] at ih
          simp [hb, ih]

/-- ECMAScript `GetSubstitution` for a string-pattern `replace` (no capture
groups): in the replacement string, `$$` yields `$`, `$&` the matched text,
a dollar followed by a backquote the text before the match, and a dollar
followed by a quote the text after the match; everything else is literal. -/
def getSubstitution (m before after : List Char) : List Char → List Char
  | [] => []
  | c :: rest =>
    if c = dollarC then
      match rest with
      | [] => [c]
      | d :: rest2 =>
        if d = dollarC then dollarC :: getSubstitution m before after rest2
        else if d = amperC then m ++ getSubstitution m before after rest2
        else if d = backqC then before ++ getSubstitution m before after rest2
        else if d = squoteC then after ++ getSubstitution m before after rest2
        else c :: getSubstitution m before after (d :: rest2)
    else c :: getSubstitution m before after rest

/-- Index of the first occurrence of `pat` in `s`, if any. -/
def findSub (pat : List Char) : List Char → Option Nat
  | [] => if pat.isPrefixOf ([] : List Char) then some 0 else none
  | c :: t =>
    if pat.isPrefixOf (c :: t) then some 0
    else (findSub pat t).map (· + 1)

/-- JavaScript `String.prototype.replace` with a string pattern: replace only
the first occurrence, processing `$` patterns in the replacement. -/
def jsReplaceFirst (s pat rep : List Char) : List Char :=
  match findSub pat s with
  | none => s
  | some i =>
      s.take i ++ getSubstitution pat (s.take i) (s.drop (i + pat.length)) rep
        ++ s.drop (i + pat.length)

/-- The list `LANG_OPTIONS` from App.jsx. -/
def LANG_OPTIONS : List (List Char) := ["en".data, "nl".data]

/-- The drug predicate `PREDICATES.drug` from App.jsx. -/
def drugPredicate : List Char := "rdfs:label".data

/-- The adverse-event predicate `PREDICATES.ade` from App.jsx. -/
def adePredicate : List Char := "skos:prefLabel".data

/-- The list `Object.values(PREDICATES)` from App.jsx. -/
def predicateValues : List (List Char) := [drugPredicate, adePredicate]

/-- The constant `SPARQL_TEMPLATE` from App.jsx, verbatim. -/
def SPARQL_TEMPLATE : List Char :=
  ("PREFIX rdfs: <http://www.w3.org/2000/01/rdf-schema#>\nPREFIX skos: <http://www.w3.org/2004/02/skos/core#>\n\nSELECT ?e (SUBSTR(STR(?label), 1, 150) AS ?shortLabel) WHERE \x7b\n  ?e <http://www.ontotext.com/plugins/autocomplete#query> \"q0\" .\n  ?e qPred ?label .\n  FILTER(lang(?label) = \"qLang\")\n\x7d LIMIT 10").data

/-- The search-text placeholder. -/
def q0Token : List Char := "q0".data

/-- The predicate placeholder. -/
def qPredToken : List Char := "qPred".data

/-- The language placeholder. -/
def qLangToken : List Char := "qLang".data

/-- Template text up to and including the quote that opens the search slot. -/
def tplA : List Char :=
  ("PREFIX rdfs: <http://www.w3.org/2000/01/rdf-schema#>\nPREFIX skos: <http://www.w3.org/2004/02/skos/core#>\n\nSELECT ?e (SUBSTR(STR(?label), 1, 150) AS ?shortLabel) WHERE \x7b\n  ?e <http://www.ontotext.com/plugins/autocomplete#query> \"").data

/-- Text of `tplA` without its final double quote. -/
def tplA0 : List Char :=
  ("PREFIX rdfs: <http://www.w3.org/2000/01/rdf-schema#>\nPREFIX skos: <http://www.w3.org/2004/02/skos/core#>\n\nSELECT ?e (SUBSTR(STR(?label), 1, 150) AS ?shortLabel) WHERE \x7b\n  ?e <http://www.ontotext.com/plugins/autocomplete#query> ").data

/-- Template text between the search slot and the predicate slot. -/
def tplB : List Char := ("\" .\n  ?e ").data

/-- Text of `tplB` without its leading double quote. -/
def tplB1 : List Char := (" .\n  ?e ").data

/-- Template text between the predicate slot and the language slot. -/
def tplC : List Char := (" ?label .\n  FILTER(lang(?label) = \"").data

/-- Template text after the language slot. -/
def tplD : List Char := ("\")\n\x7d LIMIT 10").data

/-- Error message `Unsupported language: ${lang}. Expected en or nl.`. -/
def unsupportedLanguageMsg (lang : List Char) : List Char :=
  "Unsupported language: ".data ++ lang ++ ". Expected en or nl.".data

/-- Error message `Unsupported predicate: ${predicate}.`. -/
def unsupportedPredicateMsg (pred : List Char) : List Char :=
  "Unsupported predicate: ".data ++ pred ++ ".".data

/-- The function `buildQuery` from App.jsx: validate the language (after trim+lowercase)
against `LANG_OPTIONS` and the predicate against `Object.values(PREDICATES)`,
then substitute the three placeholders with `replace`. -/
def buildQuery (query pred lang : List Char) : Except (List Char) (List Char) :=
  let normalizedLang := jsToLower (jsTrim lang)
  if ¬ LANG_OPTIONS.contains normalizedLang then
    .error (unsupportedLanguageMsg lang)
  else if ¬ predicateValues.contains pred then
    .error (unsupportedPredicateMsg pred)
  else
    .ok (jsReplaceFirst
          (jsReplaceFirst
            (jsReplaceFirst SPARQL_TEMPLATE q0Token (escapeSparqlStringLiteral query))
            qPredToken pred)
          qLangToken normalizedLang)

/-- The result the spec describes: the fixed template with exactly three
substitutions — escaped search text, predicate term, lowercased language —
and nothing else altered. -/
def substitutedTemplate (query pred lang : List Char) : List Char :=
  tplA ++ escapeSparqlStringLiteral query ++ tplB ++ pred ++ tplC ++ lang ++ tplD

theorem getSubstitution_cons_ne (m before after : List Char) (c : Char)
    (rest : List Char) (hc : ¬ c = dollarC) :
    getSubstitution m before after (c :: rest) =
      c :: getSubstitution m before after rest := by
  rw [getSubstitution.eq_def]
  simp [hc]

theorem getSubstitution_of_no_dollar (m before after r : List Char)
    (h : dollarC ∉ r) : getSubstitution m before after r = r := by
  induction r with
  | nil => rfl
  | cons c rest ih =>
    have hc : ¬ c = dollarC := fun hc => h (hc ▸ List.mem_cons_self c rest)
    rw [getSubstitution_cons_ne m before after c rest hc,
      ih (fun hm => h (List.mem_cons_of_mem c hm))]

theorem prefix_of_append_of_length_le {pat u v : List Char}
    (h : pat <+: u ++ v) (hl : pat.length ≤ u.length) : pat <+: u := by
  have ht : pat = (u ++ v).take pat.length := List.prefix_iff_eq_take.mp h
  rw [List.take_append_eq_append_take, Nat.sub_eq_zero_of_le hl, List.take_zero,
    List.append_nil] at ht
  rw [ht]
  exact List.take_prefix _ _

theorem length_le_of_prefix_append_cons {pat u v : List Char} {c : Char}
    (h : pat <+: u ++ c :: v) (hc : c ∉ pat) : pat.length ≤ u.length := by
  by_contra hgt
  push_neg at hgt
  rw [List.prefix_iff_eq_take, List.take_append_eq_append_take] at h
  have htu : u.take pat.length = u := List.take_of_length_le (Nat.le_of_lt hgt)
  rw [htu] at h
  have hpos : 0 < pat.length - u.length := Nat.sub_pos_of_lt hgt
  have : c ∈ pat := by
    rw [h]
    refine List.mem_append_right _ ?_
    cases hn : pat.length - u.length with
    | zero => omega
    | succ k => simp [List.take_cons, hn]
  exact hc this

theorem isPrefixOf_append_of_isPrefixOf {pat u v : List Char}
    (h : pat.isPrefixOf u = true) : pat.isPrefixOf (u ++ v) = true := by
  rw [ List.isPrefixOf_iff_prefix] at h ⊢
  exact h.trans (List.prefix_append u v)

theorem findSub_nil (pat : List Char) :
    findSub pat [] = if pat.isPrefixOf ([] : List Char) then some 0 else none := rfl

theorem findSub_cons (pat : List Char) (c : Char) (t : List Char) :
    findSub pat (c :: t) =
      if pat.isPrefixOf (c :: t) then some 0 else (findSub pat t).map (· + 1) := rfl

theorem findSub_nil_of_ne (pat : List Char) (hne : pat ≠ []) :
    findSub pat [] = none := by
  rw [findSub_nil, if_neg]
  intro hp
  rw [ List.isPrefixOf_iff_prefix, List.prefix_nil] at hp
  exact hne hp

/-- First-occurrence search distributes over a separator character that the
pattern does not contain: the first occurrence is either entirely before the
separator or entirely after it. -/
theorem findSub_append_sep (pat : List Char) (hne : pat ≠ []) (c : Char)
    (hc : c ∉ pat) (X Y : List Char) :
    findSub pat (X ++ c :: Y) =
      match findSub pat X with
      | some i => some i
      | none => (findSub pat Y).map (· + (X.length + 1)) := by
  induction X with
  | nil =>
    have hnp : ¬ pat.isPrefixOf (c :: Y) = true := by
      intro hp
      rw [ List.isPrefixOf_iff_prefix] at hp
      cases pat with
      | nil => exact hne rfl
      | cons p ps =>
        obtain ⟨t, ht⟩ := hp
        rw [List.cons_append] at ht
        injection ht with h1 _
        exact hc (h1 ▸ List.mem_cons_self p ps)
    rw [List.nil_append, findSub_cons, if_neg hnp, findSub_nil_of_ne pat hne]
    simp
  | cons x X' ih =>
    rw [List.cons_append, findSub_cons]
    by_cases hp : pat.isPrefixOf (x :: X') = true
    · have hps : pat.isPrefixOf (x :: (X' ++ c :: Y)) = true := by
        rw [← List.cons_append]
        exact isPrefixOf_append_of_isPrefixOf hp
      rw [if_pos hps, findSub_cons, if_pos hp]
    · have hp2 : ¬ pat.isPrefixOf (x :: (X' ++ c :: Y)) = true := by
        intro habs
        rw [← List.cons_append, List.isPrefixOf_iff_prefix] at habs
        have hlen := length_le_of_prefix_append_cons habs hc
        have hpre := prefix_of_append_of_length_le habs hlen
        exact hp ( List.isPrefixOf_iff_prefix.mpr hpre)
      rw [if_neg hp2, ih, findSub_cons, if_neg hp]
      cases hX' : findSub pat X' with
      | some i => simp
      | none =>
        cases hY : findSub pat Y with
        | some j =>
          simp only [Option.map_some, Option.map_map, List.length_cons]
          simp
          try omega
        | none => simp

/-- When the first occurrence of `pat` is exactly the explicit one between
`X` and `Y`, `replace` splices the substitution there. -/
theorem jsReplaceFirst_at (X pat Y rep : List Char)
    (h : findSub pat (X ++ pat ++ Y) = some X.length) :
    jsReplaceFirst (X ++ pat ++ Y) pat rep =
      X ++ getSubstitution pat X Y rep ++ Y := by
  unfold jsReplaceFirst
  rw [h]
  have ht : (X ++ pat ++ Y).take X.length = X := by
    rw [List.append_assoc]
    exact List.take_left X (pat ++ Y)
  have hd : (X ++ pat ++ Y).drop (X.length + pat.length) = Y := by
    rw [← List.length_append]
    exact List.drop_left (X ++ pat) Y
  show List.take X.length (X ++ pat ++ Y) ++
      getSubstitution pat (List.take X.length (X ++ pat ++ Y))
        (List.drop (X.length + pat.length) (X ++ pat ++ Y)) rep ++
      List.drop (X.length + pat.length) (X ++ pat ++ Y) =
    X ++ getSubstitution pat X Y rep ++ Y
  rw [ht, hd]

/-- First-occurrence search in a text of the shape
`X0 "E" M…` (two double-quote separators), for a pattern free of double
quotes that occurs neither in `X0` nor in `E`. -/
theorem findSub_double_sep (pat : List Char) (hne : pat ≠ []) (hdq : dq ∉ pat)
    (X0 E M : List Char) (hX0 : findSub pat X0 = none)
    (hE : findSub pat E = none) (k : Nat) (hM : findSub pat M = some k) :
    findSub pat (X0 ++ dq :: (E ++ dq :: M)) =
      some (k + (E.length + 1) + (X0.length + 1)) := by
  rw [findSub_append_sep pat hne dq hdq X0 (E ++ dq :: M), hX0]
  show (findSub pat (E ++ dq :: M)).map (· + (X0.length + 1)) = _
  rw [findSub_append_sep pat hne dq hdq E M, hE]
  show ((findSub pat M).map (· + (E.length + 1))).map (· + (X0.length + 1)) = _
  rw [hM]
  simp

theorem tplA_eq : tplA = tplA0 ++ [dq] := by decide

theorem tplB_eq : tplB = dq :: tplB1 := by decide

theorem template_split :
    SPARQL_TEMPLATE = tplA ++ q0Token ++ (tplB ++ qPredToken ++ tplC ++ qLangToken ++ tplD) := by
  decide

/-- C2 (amended): for valid language and predicate, and a raw query whose
escaped form contains neither placeholder token (`qPred`, `qLang`) nor the
dollar character, `buildQuery` returns exactly the template with the three
substitutions of the spec, nothing else altered. -/
theorem buildQuery_three_substitutions (query pred lang : List Char)
    (h1 : findSub qPredToken (escapeSparqlStringLiteral query) = none)
    (h2 : findSub qLangToken (escapeSparqlStringLiteral query) = none)
    (h3 : dollarC ∉ escapeSparqlStringLiteral query)
    (hl : jsToLower (jsTrim lang) = "en".data ∨ jsToLower (jsTrim lang) = "nl".data)
    (hp : pred = drugPredicate ∨ pred = adePredicate) :
    buildQuery query pred lang =
      .ok (substitutedTemplate query pred (jsToLower (jsTrim lang))) := by
  have hcl : LANG_OPTIONS.contains (jsToLower (jsTrim lang)) = true := by
    rcases hl with h | h <;> simp [LANG_OPTIONS, h]
  have hcp : predicateValues.contains pred = true := by
    rcases hp with h | h <;> simp [predicateValues, h]
  have hdp : dollarC ∉ pred := by
    rcases hp with h | h <;> subst h <;> decide
  have hdl : dollarC ∉ jsToLower (jsTrim lang) := by
    rcases hl with h | h <;> rw [h] <;> decide
  set E := escapeSparqlStringLiteral query with hE
  set nl := jsToLower (jsTrim lang) with hnl
  -- step 1: substitute the search slot
  have hf1 : findSub q0Token
      (tplA ++ q0Token ++ (tplB ++ qPredToken ++ tplC ++ qLangToken ++ tplD)) =
      some tplA.length := by decide
  have e1 : jsReplaceFirst SPARQL_TEMPLATE q0Token E =
      tplA ++ E ++ (tplB ++ qPredToken ++ tplC ++ qLangToken ++ tplD) := by
    rw [template_split, jsReplaceFirst_at _ _ _ E hf1,
      getSubstitution_of_no_dollar _ _ _ E h3]
  -- step 2: substitute the predicate slot
  have hM2 : findSub qPredToken (tplB1 ++ qPredToken ++ tplC ++ qLangToken ++ tplD) =
      some tplB1.length := by decide
  have hshape2 : tplA ++ E ++ (tplB ++ qPredToken ++ tplC ++ qLangToken ++ tplD) =
      tplA0 ++ dq :: (E ++ dq :: (tplB1 ++ qPredToken ++ tplC ++ qLangToken ++ tplD)) := by
    rw [tplA_eq, tplB_eq]
    simp [List.append_assoc]
  have hf2 : findSub qPredToken (tplA ++ E ++ (tplB ++ qPredToken ++ tplC ++ qLangToken ++ tplD)) =
      some ((tplA ++ E ++ tplB).length) := by
    rw [hshape2, findSub_double_sep qPredToken (by decide) (by decide)
      tplA0 E _ (by decide) h1 tplB1.length hM2]
    congr 1
    have hA : tplA.length = tplA0.length + 1 := by rw [tplA_eq]; simp
    have hB : tplB.length = tplB1.length + 1 := by rw [tplB_eq]; simp
    simp [List.length_append, hA, hB]
    omega
  have hshape2b : tplA ++ E ++ (tplB ++ qPredToken ++ tplC ++ qLangToken ++ tplD) =
      (tplA ++ E ++ tplB) ++ qPredToken ++ (tplC ++ qLangToken ++ tplD) := by
    simp [List.append_assoc]
  have e2 : jsReplaceFirst (tplA ++ E ++ (tplB ++ qPredToken ++ tplC ++ qLangToken ++ tplD))
      qPredToken pred =
      (tplA ++ E ++ tplB) ++ pred ++ (tplC ++ qLangToken ++ tplD) := by
    rw [hshape2b] at hf2 ⊢
    rw [jsReplaceFirst_at _ _ _ pred hf2,
      getSubstitution_of_no_dollar _ _ _ pred hdp]
  -- step 3: substitute the language slot
  have hM3 : findSub qLangToken (tplB1 ++ pred ++ (tplC ++ qLangToken ++ tplD)) =
      some ((tplB1 ++ pred ++ tplC).length) := by
    rcases hp with h | h <;> subst h <;> decide
  have hshape3 : (tplA ++ E ++ tplB) ++ pred ++ (tplC ++ qLangToken ++ tplD) =
      tplA0 ++ dq :: (E ++ dq :: (tplB1 ++ pred ++ (tplC ++ qLangToken ++ tplD))) := by
    rw [tplA_eq, tplB_eq]
    simp [List.append_assoc]
  have hf3 : findSub qLangToken ((tplA ++ E ++ tplB) ++ pred ++ (tplC ++ qLangToken ++ tplD)) =
      some (((tplA ++ E ++ tplB) ++ pred ++ tplC).length) := by
    rw [hshape3, findSub_double_sep qLangToken (by decide) (by decide)
      tplA0 E _ (by decide) h2 _ hM3]
    congr 1
    have hA : tplA.length = tplA0.length + 1 := by rw [tplA_eq]; simp
    have hB : tplB.length = tplB1.length + 1 := by rw [tplB_eq]; simp
    simp [List.length_append, hA, hB]
    omega
  have hshape3b : (tplA ++ E ++ tplB) ++ pred ++ (tplC ++ qLangToken ++ tplD) =
      ((tplA ++ E ++ tplB) ++ pred ++ tplC) ++ qLangToken ++ tplD := by
    simp [List.append_assoc]
  have e3 : jsReplaceFirst ((tplA ++ E ++ tplB) ++ pred ++ (tplC ++ qLangToken ++ tplD))
      qLangToken nl =
      ((tplA ++ E ++ tplB) ++ pred ++ tplC) ++ nl ++ tplD := by
    rw [hshape3b] at hf3 ⊢
    rw [jsReplaceFirst_at _ _ _ nl hf3,
      getSubstitution_of_no_dollar _ _ _ nl hdl]
  -- assemble
  unfold buildQuery
  rw [if_neg (not_not_intro hcl), if_neg (not_not_intro hcp)]
  rw [← hnl, ← hE, e1, e2, e3]
  simp only [substitutedTemplate, ← hE, List.append_assoc]

deriving instance DecidableEq for Except

/-- C2 counterexample: with the valid input (query `qPred`, predicate
`rdfs:label`, language `en`) the build succeeds but does not return the
template with the three substitutions: the first-occurrence `replace` puts
the predicate into the search slot and leaves the predicate slot literal. -/
theorem buildQuery_three_substitutions_counterexample :
    (buildQuery "qPred".data drugPredicate "en".data).isOk = true
    ∧ buildQuery "qPred".data drugPredicate "en".data ≠
        Except.ok (substitutedTemplate "qPred".data drugPredicate "en".data) := by
  decide

/-- Witness for the amended C2 theorem at a concrete well-behaved input. -/
theorem buildQuery_three_substitutions_witness :
    buildQuery "ibuprofen".data drugPredicate " EN ".data =
      .ok (substitutedTemplate "ibuprofen".data drugPredicate
            (jsToLower (jsTrim " EN ".data))) :=
  buildQuery_three_substitutions "ibuprofen".data drugPredicate " EN ".data
    (by decide) (by decide) (by decide) (Or.inl (by decide)) (Or.inl rfl)

/-- Validity of the language input: after trim and lowercase it must be one
of the allowed options. -/
def langOk (lang : List Char) : Bool :=
  LANG_OPTIONS.contains (jsToLower (jsTrim lang))

/-- Validity of the predicate input: one of the two recognised predicates. -/
def predOk (pred : List Char) : Bool :=
  predicateValues.contains pred

theorem middle_of_append (a b c : List Char) : b <:+: a ++ b ++ c := ⟨a, c, rfl⟩

/-- C5: `buildQuery` fails exactly when the normalized language is outside
the allow-list or the predicate is unrecognised; the language error names the
rejected value and the allowed set, the predicate error names the rejected
value. -/
theorem buildQuery_validation (query pred lang : List Char) :
    ((buildQuery query pred lang).isOk = (langOk lang && predOk pred))
    ∧ (langOk lang = false →
        buildQuery query pred lang = .error (unsupportedLanguageMsg lang)
        ∧ lang <:+: unsupportedLanguageMsg lang
        ∧ "en".data <:+: unsupportedLanguageMsg lang
        ∧ "nl".data <:+: unsupportedLanguageMsg lang)
    ∧ (langOk lang = true → predOk pred = false →
        buildQuery query pred lang = .error (unsupportedPredicateMsg pred)
        ∧ pred <:+: unsupportedPredicateMsg pred) := by
  have hmsg_en : unsupportedLanguageMsg lang =
      ("Unsupported language: ".data ++ lang ++ ". Expected ".data) ++ "en".data
        ++ " or nl.".data := by
    simp only [unsupportedLanguageMsg, List.append_assoc]
    congr 2
  have hmsg_nl : unsupportedLanguageMsg lang =
      ("Unsupported language: ".data ++ lang ++ ". Expected en or ".data) ++ "nl".data
        ++ ".".data := by
    simp only [unsupportedLanguageMsg, List.append_assoc]
    congr 2
  refine ⟨?_, ?_, ?_⟩
  · unfold buildQuery langOk predOk
    by_cases h1 : LANG_OPTIONS.contains (jsToLower (jsTrim lang)) = true
    · by_cases h2 : predicateValues.contains pred = true
      · rw [if_neg (not_not_intro h1), if_neg (not_not_intro h2), h1, h2]
        rfl
      · rw [if_neg (not_not_intro h1), if_pos h2, h1,
          Bool.eq_false_iff.mpr h2]
        rfl
    · rw [if_pos h1, Bool.eq_false_iff.mpr h1]
      rfl
  · intro hf
    have h1 : ¬ LANG_OPTIONS.contains (jsToLower (jsTrim lang)) = true := by
      unfold langOk at hf
      intro hc
      rw [hc] at hf
      exact Bool.noConfusion hf
    refine ⟨?_, middle_of_append _ _ _, ?_, ?_⟩
    · unfold buildQuery
      rw [if_pos h1]
    · rw [hmsg_en]
      exact middle_of_append _ _ _
    · rw [hmsg_nl]
      exact middle_of_append _ _ _
  · intro ht hf
    have h1 : LANG_OPTIONS.contains (jsToLower (jsTrim lang)) = true := ht
    have h2 : ¬ predicateValues.contains pred = true := by
      unfold predOk at hf
      intro hc
      rw [hc] at hf
      exact Bool.noConfusion hf
    refine ⟨?_, middle_of_append _ _ _⟩
    unfold buildQuery
    rw [if_neg (not_not_intro h1), if_pos h2]

/-- Witness for C5: language `xx` is rejected with the documented message. -/
theorem buildQuery_validation_witness :
    buildQuery "ab".data drugPredicate "xx".data =
      .error (unsupportedLanguageMsg "xx".data)
    ∧ "xx".data <:+: unsupportedLanguageMsg "xx".data
    ∧ "en".data <:+: unsupportedLanguageMsg "xx".data
    ∧ "nl".data <:+: unsupportedLanguageMsg "xx".data :=
  (buildQuery_validation "ab".data drugPredicate "xx".data).2.1 (by decide)

/-- The slash character, separator of URI path segments. -/
def slashC : Char := '/'

/-- JavaScript `String.prototype.split` with a single-character separator:
always returns at least one (possibly empty) piece. -/
def jsSplit (c : Char) : List Char → List (List Char)
  | [] => [[]]
  | x :: xs =>
    match jsSplit c xs with
    | [] => if x = c then [[], []] else [[x]]
    | h :: t => if x = c then [] :: h :: t else (x :: h) :: t

/-- One SPARQL result binding: the optional `e.value` and
`shortLabel.value` fields read by `fetchSparql`. -/
structure Binding where
  e : Option (List Char)
  shortLabel : Option (List Char)
deriving DecidableEq

/-- A display row `{ id, label }` produced by `fetchSparql`. -/
structure ResultRow where
  id : List Char
  label : List Char
deriving DecidableEq

/-- The row mapping inside `fetchSparql`:
`uri = result?.e?.value ?? ''`, `label = result?.shortLabel?.value ?? ''`,
`id = uri.split('/').pop() || uri`. -/
def bindingToRow (b : Binding) : ResultRow :=
  let uri := b.e.getD []
  let label := b.shortLabel.getD []
  let tailSeg := (jsSplit slashC uri).getLastD []
  let id := if tailSeg = [] then uri else tailSeg
  ⟨id, label⟩

theorem jsSplit_cons (c x : Char) (xs : List Char) :
    jsSplit c (x :: xs) =
      match jsSplit c xs with
      | [] => if x = c then [[], []] else [[x]]
      | h :: t => if x = c then [] :: h :: t else (x :: h) :: t := rfl

theorem jsSplit_ne_nil (c : Char) (s : List Char) : jsSplit c s ≠ [] := by
  cases s with
  | nil => simp [jsSplit]
  | cons x xs =>
    rw [jsSplit_cons]
    cases jsSplit c xs with
    | nil => by_cases h : x = c <;> simp [h]
    | cons h t => by_cases hx : x = c <;> simp [hx]

theorem jsSplit_no_sep (c : Char) (s : List Char) (h : c ∉ s) :
    jsSplit c s = [s] := by
  induction s with
  | nil => rfl
  | cons x xs ih =>
    have hx : ¬ x = c := fun hx => h (hx ▸ List.mem_cons_self x xs)
    rw [jsSplit_cons, ih (fun hm => h (List.mem_cons_of_mem x hm))]
    simp [hx]

theorem jsSplit_two_pieces (c : Char) (s : List Char) (h : c ∈ s) :
    2 ≤ (jsSplit c s).length := by
  induction s with
  | nil => cases h
  | cons x xs ih =>
    rw [jsSplit_cons]
    cases hs : jsSplit c xs with
    | nil => exact absurd hs (jsSplit_ne_nil c xs)
    | cons hd tl =>
      by_cases hx : x = c
      · simp [hx]
      · have hmem : c ∈ xs := by
          cases List.mem_cons.mp h with
          | inl he => exact absurd he.symm hx
          | inr hm => exact hm
        have h2 := ih hmem
        rw [hs] at h2
        simp only [List.length_cons] at h2
        simp [hx, List.length_cons]
        omega

theorem jsSplit_getLast_cons (c : Char) (x : Char) (s : List Char)
    (h : c ∈ s) :
    (jsSplit c (x :: s)).getLastD [] = (jsSplit c s).getLastD [] := by
  have h2 := jsSplit_two_pieces c s h
  rw [jsSplit_cons]
  cases hs : jsSplit c s with
  | nil => exact absurd hs (jsSplit_ne_nil c s)
  | cons hd tl =>
    cases tl with
    | nil =>
      rw [hs] at h2
      simp at h2
    | cons hd2 tl2 =>
      by_cases hx : x = c <;> simp [hx, List.getLastD_cons]

theorem jsSplit_getLast_append (c : Char) (xs ys : List Char) (h : c ∉ ys) :
    (jsSplit c (xs ++ c :: ys)).getLastD [] = ys := by
  induction xs with
  | nil =>
    rw [List.nil_append, jsSplit_cons, jsSplit_no_sep c ys h]
    simp
  | cons x xs' ih =>
    rw [List.cons_append,
      jsSplit_getLast_cons c x _ (List.mem_append_right _ (List.mem_cons_self c ys)), ih]

/-- C10: mapping a binding to a result row is total: missing `e` or
`shortLabel` values become empty strings; the id is the segment after the
last slash of the URI, except that an empty trailing segment (or a
slash-free URI) makes the id the whole URI. -/
theorem bindingToRow_spec (xs ys u : List Char) (lab : Option (List Char))
    (hys : slashC ∉ ys) (hu : slashC ∉ u) :
    ((bindingToRow ⟨some (xs ++ slashC :: ys), lab⟩).id
        = if ys = [] then xs ++ slashC :: ys else ys)
    ∧ (bindingToRow ⟨some u, lab⟩).id = u
    ∧ (bindingToRow ⟨none, lab⟩).id = []
    ∧ (∀ e, (bindingToRow ⟨e, lab⟩).label = lab.getD []) := by
  refine ⟨?_, ?_, ?_, fun e => rfl⟩
  · unfold bindingToRow
    simp only [Option.getD_some]
    rw [jsSplit_getLast_append slashC xs ys hys]
  · unfold bindingToRow
    simp only [Option.getD_some]
    rw [jsSplit_no_sep slashC u hu]
    by_cases hu0 : u = [] <;> simp [hu0, List.getLastD]
  · rfl

/-- Witness for C10 at concrete URIs. -/
theorem bindingToRow_spec_witness :
    ((bindingToRow ⟨some ("http://ex.org/d".data ++ slashC :: "12345".data),
        some "Ibuprofen".data⟩).id
      = if "12345".data = [] then "http://ex.org/d".data ++ slashC :: "12345".data
        else "12345".data)
    ∧ (bindingToRow ⟨some "abc".data, some "Ibuprofen".data⟩).id = "abc".data
    ∧ (bindingToRow ⟨none, some "Ibuprofen".data⟩).id = []
    ∧ (∀ e, (bindingToRow ⟨e, some "Ibuprofen".data⟩).label
        = (some "Ibuprofen".data).getD []) :=
  bindingToRow_spec "http://ex.org/d".data "12345".data "abc".data
    (some "Ibuprofen".data) (by decide) (by decide)

/-- The info message for an empty result set. -/
def noMatchesMsg : List Char := "No matches found.".data

/-- The name of a cancellation rejection (`err.name === 'AbortError'`). -/
def abortErrorName : List Char := "AbortError".data

/-- The message carried by a cancellation rejection. -/
def abortMsg : List Char := "signal is aborted without reason".data

/-- The name of a generic `Error` thrown for a non-2xx response. -/
def httpErrorName : List Char := "Error".data

/-- The name of a transport failure rejection. -/
def typeErrorName : List Char := "TypeError".data

/-- The name of a JSON parse failure rejection. -/
def jsonSyntaxErrorName : List Char := "SyntaxError".data

/-- The message of a JSON parse failure rejection. -/
def jsonParseMsg : List Char := "Unexpected token".data

/-- The non-2xx error message built by `fetchSparql`:
`Query failed (${status} ${statusText}): ${text || 'No response body.'}`. -/
def queryFailedMsg (status : Nat) (statusText body : List Char) : List Char :=
  "Query failed (".data ++ (Nat.repr status).data ++ " ".data ++ statusText
    ++ "): ".data ++ (if body = [] then "No response body.".data else body)

/-- An HTTP response as observed by `fetchSparql`: status, status text, raw
body text, and the parsed JSON view of the body — `none` when the body is
not JSON, `some jb` where `jb` is the optional `results.bindings` path. -/
structure HttpResp where
  status : Nat
  statusText : List Char
  body : List Char
  json : Option (Option (List Binding))
deriving DecidableEq

/-- The value a settled `fetchSparql` resolves with: either the
`'No matches found.'` sentinel string or the mapped rows. -/
inductive FetchData
  | message (s : List Char)
  | rows (rs : List ResultRow)
deriving DecidableEq

/-- A promise settlement: fulfilled with data, or rejected with a named
error carrying a message. -/
inductive Settlement
  | fulfilled (d : FetchData)
  | rejected (name msg : List Char)
deriving DecidableEq

/-- The post-response behaviour of `fetchSparql`: non-2xx throws the
`Query failed` error, otherwise the bindings (defaulting to `[]` along the
optional path) are mapped to rows, and an empty row list yields the
`'No matches found.'` sentinel. -/
def fetchSettle (r : HttpResp) : Settlement :=
  if !(200 ≤ r.status && r.status ≤ 299) then
    .rejected httpErrorName (queryFailedMsg r.status r.statusText r.body)
  else
    match r.json with
    | none => .rejected jsonSyntaxErrorName jsonParseMsg
    | some jb =>
      let rows := (jb.getD []).map bindingToRow
      if rows.length = 0 then .fulfilled (.message noMatchesMsg)
      else .fulfilled (.rows rows)

/-- How a pending (non-aborted) request resolves: with a server response or
with a transport failure. -/
inductive NetResult
  | response (r : HttpResp)
  | netError (msg : List Char)
deriving DecidableEq

/-- The renderable state of one search stream: the `useState` record of
`useSearchResults` (`loading`, `error`, `info`, `results`). -/
structure UiState where
  loading : Bool
  error : Option (List Char)
  info : Option (List Char)
  results : List ResultRow
deriving DecidableEq

/-- The `.then`/`.catch` handlers of `useSearchResults`: a string datum sets
the info message, rows set the results, an `AbortError` rejection is
discarded, any other rejection sets the error message
(`err?.message || String(err)`). -/
def applySettlement (ui : UiState) : Settlement → UiState
  | .fulfilled (.message m) => ⟨false, none, some m, []⟩
  | .fulfilled (.rows rs) => ⟨false, none, none, rs⟩
  | .rejected name msg =>
      if name = abortErrorName then ui
      else ⟨false, some (if msg = [] then name else msg), none, []⟩

/-- One issued network request of a stream: its controller identity, the
(trimmed) query it carries, and whether its controller has been aborted. -/
structure Req where
  id : Nat
  query : List Char
  aborted : Bool
deriving DecidableEq

/-- The full state of one search stream: renderable state, outstanding
requests, the identity of the latest effect's controller, a fresh-identity
counter, and the log of issued network calls. -/
structure MState where
  ui : UiState
  reqs : List Req
  current : Option Nat
  nextId : Nat
  calls : List (List Char)
deriving DecidableEq

/-- Events driving one stream: the debounced query changing (the effect
re-runs: cleanup aborts the previous controller, then the body runs), and a
pending request settling with a network result. -/
inductive Event
  | input (q : List Char)
  | settle (id : Nat) (res : NetResult)

/-- Mark the request owned by the current controller as aborted
(the effect cleanup `controller.abort()`). -/
def abortCurrent (s : MState) : List Req :=
  s.reqs.map (fun r => if s.current = some r.id then { r with aborted := true } else r)

/-- The idle/empty outcome `{loading:false, error:null, info:null, results:[]}`. -/
def emptyUi : UiState := ⟨false, none, none, []⟩

/-- The step function of one stream, translated from the effect body and the
promise handlers of `useSearchResults`.  An aborted request settles as an
`AbortError` rejection regardless of its network result. -/
def step (s : MState) : Event → MState
  | .input q =>
    let reqs := abortCurrent s
    let trimmed := jsTrim q
    if trimmed.length < 2 then
      { s with ui := emptyUi, reqs := reqs, current := none }
    else
      { ui := { s.ui with loading := true, error := none, info := none },
        reqs := reqs ++ [⟨s.nextId, trimmed, false⟩],
        current := some s.nextId,
        nextId := s.nextId + 1,
        calls := s.calls ++ [trimmed] }
  | .settle i res =>
    match s.reqs.find? (fun r => r.id == i) with
    | none => s
    | some r =>
      let settlement :=
        if r.aborted then Settlement.rejected abortErrorName abortMsg
        else
          match res with
          | .response resp => fetchSettle resp
          | .netError m => .rejected typeErrorName m
      { s with ui := applySettlement s.ui settlement,
               reqs := s.reqs.filter (fun r => r.id != i) }

/-- The initial state of a stream. -/
def initState : MState := ⟨emptyUi, [], none, 0, []⟩

/-- Run a list of events from a state. -/
def run (s : MState) (evs : List Event) : MState := evs.foldl step s

/-- States reachable from the initial state. -/
inductive Reachable : MState → Prop
  | init : Reachable initState
  | step {s : MState} (hs : Reachable s) (e : Event) : Reachable (step s e)

/-- Mutual exclusion on the renderable state: an error excludes everything
else, an info message excludes everything else, and loading excludes error
and info (but not leftover results). -/
def uiInv (u : UiState) : Prop :=
  (u.error ≠ none → u.loading = false ∧ u.info = none ∧ u.results = [])
  ∧ (u.info ≠ none → u.loading = false ∧ u.error = none ∧ u.results = [])
  ∧ (u.loading = true → u.error = none ∧ u.info = none)

/-- Structural invariant of a stream state. -/
def stInv (s : MState) : Prop :=
  uiInv s.ui
  ∧ (∀ r ∈ s.reqs, r.id < s.nextId)
  ∧ (s.reqs.map Req.id).Nodup
  ∧ (∀ r ∈ s.reqs, r.aborted = false → s.current = some r.id)

theorem abortCurrent_map_id (s : MState) :
    (abortCurrent s).map Req.id = s.reqs.map Req.id := by
  unfold abortCurrent
  rw [List.map_map]
  apply List.map_congr_left
  intro r _
  by_cases h : s.current = some r.id <;> simp [h]

theorem abortCurrent_mem {s : MState} {r' : Req} (h : r' ∈ abortCurrent s) :
    ∃ r ∈ s.reqs,
      r' = if s.current = some r.id then { r with aborted := true } else r := by
  unfold abortCurrent at h
  obtain ⟨r, hr, he⟩ := List.mem_map.mp h
  exact ⟨r, hr, he.symm⟩

theorem find?_eq_of_mem_nodup {l : List Req} {r : Req} (hm : r ∈ l)
    (hn : (l.map Req.id).Nodup) : l.find? (fun x => x.id == r.id) = some r := by
  induction l with
  | nil => cases hm
  | cons a l ih =>
    rw [List.map_cons, List.nodup_cons] at hn
    by_cases ha : (a.id == r.id) = true
    · have hra : r = a := by
        cases List.mem_cons.mp hm with
        | inl h => exact h
        | inr h =>
          exfalso
          have hmem : r.id ∈ l.map Req.id := List.mem_map_of_mem Req.id h
          have ha' : a.id = r.id := by simpa using ha
          exact hn.1 (ha' ▸ hmem)
      subst hra
      simp [List.find?_cons]
    · have hr : r ∈ l := by
        cases List.mem_cons.mp hm with
        | inl h => exact absurd (by rw [h]; simp) ha
        | inr h => exact h
      have ha2 : (a.id == r.id) = false := Bool.eq_false_iff.mpr ha
      simp only [List.find?_cons, ha2]
      exact ih hr hn.2

theorem applySettlement_uiInv (u : UiState) (hu : uiInv u) (st : Settlement) :
    uiInv (applySettlement u st) := by
  cases st with
  | fulfilled d =>
    cases d with
    | message m =>
      exact ⟨by simp [applySettlement], by simp [applySettlement],
        by simp [applySettlement]⟩
    | rows rs =>
      exact ⟨by simp [applySettlement], by simp [applySettlement],
        by simp [applySettlement]⟩
  | rejected name msg =>
    by_cases hn : name = abortErrorName
    · simpa [applySettlement, hn] using hu
    · exact ⟨by simp [applySettlement, hn], by simp [applySettlement, hn],
        by simp [applySettlement, hn]⟩

theorem step_input (s : MState) (q : List Char) :
    step s (.input q) =
      (if (jsTrim q).length < 2 then
        { s with ui := emptyUi, reqs := abortCurrent s, current := none }
      else
        { ui := { s.ui with loading := true, error := none, info := none },
          reqs := abortCurrent s ++ [⟨s.nextId, jsTrim q, false⟩],
          current := some s.nextId,
          nextId := s.nextId + 1,
          calls := s.calls ++ [jsTrim q] }) := rfl

theorem step_settle (s : MState) (i : Nat) (res : NetResult) :
    step s (.settle i res) =
      match s.reqs.find? (fun r => r.id == i) with
      | none => s
      | some r =>
        { s with
          ui :=
            applySettlement s.ui
              (if r.aborted then Settlement.rejected abortErrorName abortMsg
                else
                  match res with
                  | NetResult.response resp => fetchSettle resp
                  | NetResult.netError m => Settlement.rejected typeErrorName m),
          reqs := s.reqs.filter (fun r => r.id != i) } := rfl

/-- Every reachable stream state satisfies the structural invariant. -/
theorem reachable_inv {s : MState} (h : Reachable s) : stInv s := by
  induction h with
  | init =>
    refine ⟨⟨?_, ?_, ?_⟩, ?_, ?_, ?_⟩ <;> simp [initState, emptyUi]
  | step hs e ih =>
    obtain ⟨hui, hbound, hnodup, hlive⟩ := ih
    rename_i s'
    cases e with
    | input q =>
      rw [step_input]
      by_cases hlen : (jsTrim q).length < 2
      · rw [if_pos hlen]
        refine ⟨⟨?_, ?_, ?_⟩, ?_, ?_, ?_⟩
        · simp [emptyUi]
        · simp [emptyUi]
        · simp [emptyUi]
        · intro r hr
          obtain ⟨r0, hr0, he⟩ := abortCurrent_mem hr
          have : r.id = r0.id := by
            rw [he]
            by_cases hc : s'.current = some r0.id <;> simp [hc]
          rw [this]
          exact hbound r0 hr0
        · show ((abortCurrent s').map Req.id).Nodup
          rw [abortCurrent_map_id]
          exact hnodup
        · intro r hr hab
          obtain ⟨r0, hr0, he⟩ := abortCurrent_mem hr
          by_cases hc : s'.current = some r0.id
          · rw [he, if_pos hc] at hab
            simp at hab
          · rw [he, if_neg hc] at hab
            exact absurd (hlive r0 hr0 hab) hc
      · rw [if_neg hlen]
        refine ⟨⟨?_, ?_, ?_⟩, ?_, ?_, ?_⟩
        · simp
        · simp
        · simp
        · intro r hr
          rcases List.mem_append.mp hr with hr1 | hr2
          · obtain ⟨r0, hr0, he⟩ := abortCurrent_mem hr1
            have : r.id = r0.id := by
              rw [he]
              by_cases hc : s'.current = some r0.id <;> simp [hc]
            rw [this]
            exact Nat.lt_succ_of_lt (hbound r0 hr0)
          · simp at hr2
            rw [hr2]
            simp
        · show (((abortCurrent s') ++ [(⟨s'.nextId, jsTrim q, false⟩ : Req)]).map Req.id).Nodup
          rw [List.map_append, abortCurrent_map_id]
          rw [List.nodup_append]
          refine ⟨hnodup, List.nodup_singleton _, ?_⟩
          intro a ha hb
          simp at hb
          obtain ⟨r0, hr0, he⟩ := List.mem_map.mp ha
          have := hbound r0 hr0
          omega
        · intro r hr hab
          rcases List.mem_append.mp hr with hr1 | hr2
          · obtain ⟨r0, hr0, he⟩ := abortCurrent_mem hr1
            by_cases hc : s'.current = some r0.id
            · rw [he, if_pos hc] at hab
              simp at hab
            · rw [he, if_neg hc] at hab
              exact absurd (hlive r0 hr0 hab) hc
          · simp at hr2
            rw [hr2]
    | settle i res =>
      rw [step_settle]
      cases hf : s'.reqs.find? (fun r => r.id == i) with
      | none =>
        simp only [hf]
        exact ⟨hui, hbound, hnodup, hlive⟩
      | some r =>
        simp only [hf]
        have hsub : (s'.reqs.filter (fun r => r.id != i)).Sublist s'.reqs :=
          List.filter_sublist _
        refine ⟨?_, ?_, ?_, ?_⟩
        · exact applySettlement_uiInv _ hui _
        · intro r0 hr0
          exact hbound r0 (hsub.mem hr0)
        · exact hnodup.sublist (hsub.map Req.id)
        · intro r0 hr0 hab
          exact hlive r0 (hsub.mem hr0) hab

/-- C7: an input whose trimmed length is 0 or 1 issues no network call and
clears the outcome to idle/empty (not loading, no error, no info, no rows). -/
theorem short_input_idle (s : MState) (q : List Char)
    (h : (jsTrim q).length = 0 ∨ (jsTrim q).length = 1) :
    (step s (.input q)).ui = emptyUi ∧ (step s (.input q)).calls = s.calls := by
  have hlt : (jsTrim q).length < 2 := by rcases h with h | h <;> omega
  rw [step_input, if_pos hlt]
  exact ⟨rfl, rfl⟩

/-- Witness for C7 at the one-letter input `" a "`. -/
theorem short_input_idle_witness :
    (step initState (.input " a ".data)).ui = emptyUi
    ∧ (step initState (.input " a ".data)).calls = initState.calls :=
  short_input_idle initState " a ".data (Or.inr (by decide))

/-- C3: once a request has been superseded (it is no longer the current
one), its settlement — success or failure alike — leaves the renderable
outcome unchanged, and an `AbortError` rejection is never surfaced as an
error outcome. -/
theorem superseded_resolution_ignored (s : MState) (hs : Reachable s) (r : Req)
    (hr : r ∈ s.reqs) (hsup : s.current ≠ some r.id) (res : NetResult)
    (u : UiState) (m : List Char) :
    (step s (.settle r.id res)).ui = s.ui
    ∧ applySettlement u (.rejected abortErrorName m) = u := by
  obtain ⟨_, _, hnodup, hlive⟩ := reachable_inv hs
  have hab : r.aborted = true := by
    cases hb : r.aborted with
    | false => exact absurd (hlive r hr hb) hsup
    | true => rfl
  have hf : s.reqs.find? (fun x => x.id == r.id) = some r :=
    find?_eq_of_mem_nodup hr hnodup
  constructor
  · rw [step_settle]
    simp only [hf, hab, if_true]
    show applySettlement s.ui (Settlement.rejected abortErrorName abortMsg) = s.ui
    simp [applySettlement]
  · simp [applySettlement]

/-- Witness for C3: the request issued for `ab` is superseded by `abc`; its
transport failure settles with no outcome change. -/
theorem superseded_resolution_ignored_witness :
    (step (step (step initState (.input "ab".data)) (.input "abc".data))
        (.settle 0 (.netError "boom".data))).ui
      = (step (step initState (.input "ab".data)) (.input "abc".data)).ui
    ∧ applySettlement emptyUi (.rejected abortErrorName "x".data) = emptyUi :=
  superseded_resolution_ignored
    (step (step initState (.input "ab".data)) (.input "abc".data))
    (Reachable.step (Reachable.step Reachable.init (.input "ab".data)) (.input "abc".data))
    ⟨0, "ab".data, true⟩ (by decide) (by decide) (.netError "boom".data)
    emptyUi "x".data

/-- C8: a 2xx response whose payload holds zero binding rows settles the
still-current request into `Info("No matches found.")` with an empty result
list, not a Results outcome. -/
theorem empty_result_info (s : MState) (hs : Reachable s) (r : Req)
    (hr : r ∈ s.reqs) (hab : r.aborted = false) (hcur : s.current = some r.id)
    (resp : HttpResp) (h2xx : 200 ≤ resp.status ∧ resp.status ≤ 299)
    (jb : Option (List Binding)) (hjson : resp.json = some jb)
    (hempty : jb.getD [] = []) :
    (step s (.settle r.id (.response resp))).ui
      = ⟨false, none, some noMatchesMsg, []⟩ := by
  obtain ⟨_, _, hnodup, _⟩ := reachable_inv hs
  have hf : s.reqs.find? (fun x => x.id == r.id) = some r :=
    find?_eq_of_mem_nodup hr hnodup
  have hok : (200 ≤ resp.status && resp.status ≤ 299) = true := by
    simp [h2xx.1, h2xx.2]
  have hfs : fetchSettle resp = .fulfilled (.message noMatchesMsg) := by
    unfold fetchSettle
    rw [hjson]
    simp [hok, hempty]
  rw [step_settle]
  simp only [hf, hab, Bool.false_eq_true, if_false]
  show applySettlement s.ui (fetchSettle resp) = _
  rw [hfs]
  simp [applySettlement]

/-- Witness for C8 with a concrete empty 2xx response. -/
theorem empty_result_info_witness :
    (step (step initState (.input "ab".data))
        (.settle 0 (.response ⟨200, "OK".data, "".data, some (some [])⟩))).ui
      = ⟨false, none, some noMatchesMsg, []⟩ :=
  empty_result_info (step initState (.input "ab".data))
    (Reachable.step Reachable.init (.input "ab".data))
    ⟨0, "ab".data, false⟩ (by decide) rfl (by decide)
    ⟨200, "OK".data, "".data, some (some [])⟩ (by decide)
    (some []) rfl rfl

/-- C9: a non-2xx response settles the still-current request into an Error
outcome whose message contains the status code, the status text, and the
body (or the fixed placeholder when the body is empty). -/
theorem http_error_outcome (s : MState) (hs : Reachable s) (r : Req)
    (hr : r ∈ s.reqs) (hab : r.aborted = false) (hcur : s.current = some r.id)
    (resp : HttpResp) (hnot : ¬ (200 ≤ resp.status ∧ resp.status ≤ 299)) :
    (step s (.settle r.id (.response resp))).ui
      = ⟨false, some (queryFailedMsg resp.status resp.statusText resp.body), none, []⟩
    ∧ (Nat.repr resp.status).data <:+:
        queryFailedMsg resp.status resp.statusText resp.body
    ∧ resp.statusText <:+: queryFailedMsg resp.status resp.statusText resp.body
    ∧ (if resp.body = [] then "No response body.".data else resp.body) <:+:
        queryFailedMsg resp.status resp.statusText resp.body := by
  obtain ⟨_, _, hnodup, _⟩ := reachable_inv hs
  have hf : s.reqs.find? (fun x => x.id == r.id) = some r :=
    find?_eq_of_mem_nodup hr hnodup
  have hok : (200 ≤ resp.status && resp.status ≤ 299) = false := by
    rcases Decidable.not_and_iff_or_not.mp hnot with h | h <;> simp [h]
  have hfs : fetchSettle resp =
      .rejected httpErrorName (queryFailedMsg resp.status resp.statusText resp.body) := by
    unfold fetchSettle
    rw [hok]
    simp
  have hne : queryFailedMsg resp.status resp.statusText resp.body ≠ [] := by
    unfold queryFailedMsg
    simp
  refine ⟨?_, ?_, ?_, ?_⟩
  · rw [step_settle]
    simp only [hf, hab, Bool.false_eq_true, if_false]
    show applySettlement s.ui (fetchSettle resp) = _
    rw [hfs]
    simp [applySettlement, httpErrorName, abortErrorName, hne]
  · refine ⟨"Query failed (".data,
      " ".data ++ resp.statusText ++ "): ".data
        ++ (if resp.body = [] then "No response body.".data else resp.body), ?_⟩
    simp [queryFailedMsg, List.append_assoc]
  · refine ⟨"Query failed (".data ++ (Nat.repr resp.status).data ++ " ".data,
      "): ".data ++ (if resp.body = [] then "No response body.".data else resp.body), ?_⟩
    simp [queryFailedMsg, List.append_assoc]
  · refine ⟨"Query failed (".data ++ (Nat.repr resp.status).data ++ " ".data
        ++ resp.statusText ++ "): ".data, [], ?_⟩
    simp [queryFailedMsg, List.append_assoc]

/-- Witness for C9: status 500 with body `Internal error`; the message
contains `500` and `Internal error`. -/
theorem http_error_outcome_witness :
    (step (step initState (.input "ab".data))
        (.settle 0 (.response ⟨500, "Internal Server Error".data,
            "Internal error".data, none⟩))).ui
      = ⟨false, some (queryFailedMsg 500 "Internal Server Error".data
            "Internal error".data), none, []⟩
    ∧ (Nat.repr 500).data <:+:
        queryFailedMsg 500 "Internal Server Error".data "Internal error".data
    ∧ "Internal Server Error".data <:+:
        queryFailedMsg 500 "Internal Server Error".data "Internal error".data
    ∧ (if "Internal error".data = [] then "No response body.".data
        else "Internal error".data) <:+:
        queryFailedMsg 500 "Internal Server Error".data "Internal error".data :=
  http_error_outcome (step initState (.input "ab".data))
    (Reachable.step Reachable.init (.input "ab".data))
    ⟨0, "ab".data, false⟩ (by decide) rfl (by decide)
    ⟨500, "Internal Server Error".data, "Internal error".data, none⟩ (by decide)

/-- A trace state: results arrive for `ab`, then a new query `abc` starts
loading while the previous rows are still present. -/
def loadingWithResultsState : MState :=
  run initState
    [Event.input "ab".data,
     Event.settle 0 (NetResult.response
       ⟨200, "OK".data, "x".data,
        some (some [⟨some "http://e/1".data, some "L".data⟩])⟩),
     Event.input "abc".data]

/-- C1 counterexample: a reachable state is simultaneously Loading and
holding result rows — the loading transition keeps the previous rows. -/
theorem outcome_exclusivity_counterexample :
    loadingWithResultsState.ui.loading = true
    ∧ loadingWithResultsState.ui.results ≠ [] := by
  decide

/-- C1 (amended): in every reachable state, an error excludes loading, info
and rows; an info message excludes loading, error and rows; loading excludes
error and info, though result rows of the previous outcome may persist while
loading.  Every settlement other than an abort replaces the outcome
wholesale: its result does not depend on the previous outcome. -/
theorem outcome_exclusivity (s : MState) (hs : Reachable s)
    (u1 u2 : UiState) (d : FetchData) (n m : List Char)
    (hn : n ≠ abortErrorName) :
    ((s.ui.error ≠ none → s.ui.loading = false ∧ s.ui.info = none ∧ s.ui.results = [])
    ∧ (s.ui.info ≠ none → s.ui.loading = false ∧ s.ui.error = none ∧ s.ui.results = [])
    ∧ (s.ui.loading = true → s.ui.error = none ∧ s.ui.info = none))
    ∧ applySettlement u1 (.fulfilled d) = applySettlement u2 (.fulfilled d)
    ∧ applySettlement u1 (.rejected n m) = applySettlement u2 (.rejected n m) := by
  refine ⟨(reachable_inv hs).1, ?_, ?_⟩
  · cases d <;> rfl
  · simp [applySettlement, hn]

/-- Witness for the amended C1 at a concrete loading state. -/
theorem outcome_exclusivity_witness :
    (((step initState (.input "ab".data)).ui.error ≠ none →
        (step initState (.input "ab".data)).ui.loading = false
        ∧ (step initState (.input "ab".data)).ui.info = none
        ∧ (step initState (.input "ab".data)).ui.results = [])
    ∧ ((step initState (.input "ab".data)).ui.info ≠ none →
        (step initState (.input "ab".data)).ui.loading = false
        ∧ (step initState (.input "ab".data)).ui.error = none
        ∧ (step initState (.input "ab".data)).ui.results = [])
    ∧ ((step initState (.input "ab".data)).ui.loading = true →
        (step initState (.input "ab".data)).ui.error = none
        ∧ (step initState (.input "ab".data)).ui.info = none))
    ∧ applySettlement emptyUi (.fulfilled (.message noMatchesMsg))
        = applySettlement ⟨true, none, none, []⟩ (.fulfilled (.message noMatchesMsg))
    ∧ applySettlement emptyUi (.rejected httpErrorName "x".data)
        = applySettlement ⟨true, none, none, []⟩ (.rejected httpErrorName "x".data) :=
  outcome_exclusivity (step initState (.input "ab".data))
    (Reachable.step Reachable.init (.input "ab".data))
    emptyUi ⟨true, none, none, []⟩ (.message noMatchesMsg)
    httpErrorName "x".data (by decide)

/-- The hook `useDebounce` over a timed change sequence: each change arms a timer of
`delayMs`; the next change clears a timer that has not yet fired; a value
settles (becomes the debounced value) iff its timer fires.  The last change
always settles eventually. -/
def settles (delayMs : Nat) : List (Nat × List Char) → List (List Char)
  | [] => []
  | [(_, v)] => [v]
  | (t1, v1) :: (t2, v2) :: rest =>
    if t2 - t1 < delayMs then settles delayMs ((t2, v2) :: rest)
    else v1 :: settles delayMs ((t2, v2) :: rest)

/-- All consecutive changes of the sequence fall within the delay window. -/
def rapidB (delayMs : Nat) : List (Nat × List Char) → Bool
  | (t1, _) :: (t2, v2) :: rest =>
    decide (t2 - t1 < delayMs) && rapidB delayMs ((t2, v2) :: rest)
  | _ => true

/-- Consecutive equal settled values collapse: a state update with an equal
value does not re-render, so the effect does not re-run. -/
def dropConsecutiveDups (prev : List Char) : List (List Char) → List (List Char)
  | [] => []
  | v :: rest =>
    if v = prev then dropConsecutiveDups prev rest
    else v :: dropConsecutiveDups v rest

/-- The network calls issued by one stream when a timed input sequence is
debounced and each debounced change drives the effect of
`useSearchResults`. -/
def issuedCalls (delayMs : Nat) (initQuery : List Char)
    (inputs : List (Nat × List Char)) : List (List Char) :=
  (run initState
    ((dropConsecutiveDups initQuery (settles delayMs inputs)).map Event.input)).calls

theorem settles_rapid (delayMs : Nat) :
    ∀ (rest : List (Nat × List Char)) (i0 : Nat × List Char),
      rapidB delayMs (i0 :: rest) = true →
      settles delayMs (i0 :: rest) = [((i0 :: rest).getLastD (0, [])).2]
  | [], (t, v), _ => by simp [settles]
  | (t2, v2) :: rest, (t1, v1), h => by
    have hsplit : (t2 - t1 < delayMs) ∧ rapidB delayMs ((t2, v2) :: rest) = true := by
      have := h
      rw [rapidB] at this
      rcases (Bool.and_eq_true _ _).mp this with ⟨h1, h2⟩
      exact ⟨of_decide_eq_true h1, h2⟩
    rw [settles, if_pos hsplit.1, settles_rapid delayMs rest (t2, v2) hsplit.2]
    simp [List.getLastD_cons]

/-- C6 (amended): a rapid sequence of input changes, each within the delay
window of its predecessor, produces exactly one settlement, carrying the
last value; intermediate values never settle and never produce a request; a
network call is issued for the settled value iff it differs from the
previously settled query and its trimmed length is at least 2, and then
exactly one call is issued, with the trimmed last value. -/
theorem debounce_coalesces (delayMs : Nat) (initQuery : List Char)
    (i0 : Nat × List Char) (rest : List (Nat × List Char))
    (hrapid : rapidB delayMs (i0 :: rest) = true) :
    settles delayMs (i0 :: rest) = [((i0 :: rest).getLastD (0, [])).2]
    ∧ issuedCalls delayMs initQuery (i0 :: rest) =
        (if ((i0 :: rest).getLastD (0, [])).2 ≠ initQuery
            ∧ 2 ≤ (jsTrim ((i0 :: rest).getLastD (0, [])).2).length
         then [jsTrim ((i0 :: rest).getLastD (0, [])).2] else []) := by
  have hset := settles_rapid delayMs rest i0 hrapid
  refine ⟨hset, ?_⟩
  unfold issuedCalls
  rw [hset]
  set v := ((i0 :: rest).getLastD (0, [])).2 with hv
  by_cases he : v = initQuery
  · rw [if_neg (fun hco => hco.1 he)]
    rw [dropConsecutiveDups, if_pos he]
    rfl
  · rw [dropConsecutiveDups, if_neg he]
    show (step initState (.input v)).calls = _
    rw [step_input]
    by_cases hlen : (jsTrim v).length < 2
    · rw [if_pos hlen, if_neg (fun hco => absurd hco.2 (by omega))]
      rfl
    · rw [if_neg hlen, if_pos ⟨he, by omega⟩]
      rfl

/-- C6 counterexample: the rapid sequence `xy` then `x` (50 ms apart,
200 ms delay) settles only `x`, whose trimmed length is 1, so no network
call at all is issued — not exactly one. -/
theorem debounce_coalesces_counterexample :
    rapidB 200 [(0, "xy".data), (50, "x".data)] = true
    ∧ settles 200 [(0, "xy".data), (50, "x".data)] = ["x".data]
    ∧ issuedCalls 200 [] [(0, "xy".data), (50, "x".data)] = []
    ∧ ([] : List (List Char)) ≠ [jsTrim "x".data] := by
  decide

/-- Witness for the amended C6: `i`, `ib`, `ibu` typed 50 ms apart with a
200 ms delay settle only `ibu` and issue exactly one call. -/
theorem debounce_coalesces_witness :
    settles 200 [(0, "i".data), (50, "ib".data), (100, "ibu".data)] =
      [(((0, "i".data) :: [(50, "ib".data), (100, "ibu".data)]).getLastD (0, [])).2]
    ∧ issuedCalls 200 [] [(0, "i".data), (50, "ib".data), (100, "ibu".data)] =
        (if (((0, "i".data) :: [(50, "ib".data), (100, "ibu".data)]).getLastD (0, [])).2 ≠ []
            ∧ 2 ≤ (jsTrim (((0, "i".data) :: [(50, "ib".data), (100, "ibu".data)]).getLastD (0, [])).2).length
         then [jsTrim (((0, "i".data) :: [(50, "ib".data), (100, "ibu".data)]).getLastD (0, [])).2]
         else []) :=
  debounce_coalesces 200 [] (0, "i".data) [(50, "ib".data), (100, "ibu".data)]
    (by decide)
